import Mathlib

/-!
Verification of the trainer/validation engine of an automated time-series
forecasting toolkit.  The engine's data splitter, time-budget allocator,
prediction cache and model registry are embedded shallowly; panels are
represented by the per-item raw series lengths, which is the only attribute
the windowing logic inspects.
-/

namespace AGTS

/-- A panel of time series: each entry pairs an item identifier with the raw
length (number of timesteps) of that item's series. -/
abbrev Panel := List (String × Nat)

/-- Modelled from the spec: the minimum raw length an item needs to carry a
full set of `numValWindows` rolling validation windows, namely
`min_train_length + prediction_length + (num_val_windows - 1) * val_step_size`. -/
def minValLength (minTrainLength predictionLength numValWindows valStepSize : Nat) : Nat :=
  minTrainLength + predictionLength + (numValWindows - 1) * valStepSize

/-- Modelled from the spec: an item can support at least one validation fold
when its length is at least `min_train_length + prediction_length`. -/
def hasValidWindow (minTrainLength predictionLength len : Nat) : Bool :=
  decide (minTrainLength + predictionLength ≤ len)

/-- Modelled from the spec: every item of the panel that has any valid window
also has a full set of `w` windows. -/
def allItemsSupport (minTrainLength predictionLength valStepSize : Nat)
    (panel : Panel) (w : Nat) : Bool :=
  panel.all fun it =>
    !hasValidWindow minTrainLength predictionLength it.2 ||
      decide (minValLength minTrainLength predictionLength w valStepSize ≤ it.2)

/-- Modelled from the spec: `reduce_num_val_windows_if_necessary` monotonically
decreases the requested window count until every item that has any valid
window also has a full set of windows, with a floor of 1. -/
def reduceNumValWindows (minTrainLength predictionLength valStepSize : Nat)
    (panel : Panel) : Nat → Nat
  | 0 => 1
  | w + 1 =>
    if allItemsSupport minTrainLength predictionLength valStepSize panel (w + 1) then w + 1
    else reduceNumValWindows minTrainLength predictionLength valStepSize panel w

/-- Errors raised synchronously by `fit`.  `dataError` carries the minimum
length requirement it names ("series too short"). -/
inductive FitError where
  | dataError (minLengthRequired : Nat) : FitError
deriving DecidableEq

/-- Modelled from the spec: the splitter retains exactly the items whose raw
length reaches the given threshold. -/
def filterTrainPanel (threshold : Nat) (panel : Panel) : Panel :=
  panel.filter fun it => decide (threshold ≤ it.2)

/-- Modelled from the spec: the splitting stage of `fit`.  When explicit
tuning data is supplied the rolling window count is forced to 0 and items
only need `min_train_length` timesteps.  Otherwise, if no item can support a
single fold a `DataError` naming the minimum length requirement is raised;
else the window count is reduced if necessary and items shorter than the
resulting `minValLength` threshold are dropped.  Returns the filtered
training panel together with the window count passed to the trainer. -/
def fitSplit (minTrainLength predictionLength : Nat) (panel : Panel)
    (tuningData : Option Panel) (numValWindows valStepSize : Nat) :
    Except FitError (Panel × Nat) :=
  match tuningData with
  | some _ => Except.ok (filterTrainPanel minTrainLength panel, 0)
  | none =>
    if panel.all (fun it => decide (it.2 < minTrainLength + predictionLength)) then
      Except.error (FitError.dataError (minTrainLength + predictionLength))
    else
      let actual := reduceNumValWindows minTrainLength predictionLength valStepSize panel numValWindows
      Except.ok
        (filterTrainPanel (minValLength minTrainLength predictionLength actual valStepSize) panel,
          actual)

theorem reduceNumValWindows_le (minTrainLength predictionLength valStepSize : Nat)
    (panel : Panel) (w : Nat) (hw : 1 ≤ w) :
    reduceNumValWindows minTrainLength predictionLength valStepSize panel w ≤ w := by
  induction w with
  | zero => omega
  | succ n ih =>
    rw [reduceNumValWindows]
    split
    · exact Nat.le_refl _
    · match n, ih with
      | 0, _ => simp [reduceNumValWindows]
      | m + 1, ih => exact Nat.le_succ_of_le (ih (Nat.succ_le_succ (Nat.zero_le m)))

/-- Modelled from the spec: the time-budget allocator grants, before each
model starts, `remaining_time / remaining_model_count`, where the remaining
count includes the pending ensemble step (`extraSteps`); after a model
completes its elapsed time (overrun included) is deducted.  Given the list of
elapsed wall-clock times of the successive models, this returns the budget
granted to each. -/
def grantedBudgets (extraSteps : Nat) : ℚ → List ℚ → List ℚ
  | _, [] => []
  | t, e :: rest =>
    t / ((rest.length + 1 + extraSteps : Nat) : ℚ) :: grantedBudgets extraSteps (t - e) rest

/-- Modelled from the spec: whether a global model is refit on a given
validation window.  With cadence `some r` the model refits every `r` windows
starting from window 0; with cadence `none` it is fit once, on window 0. -/
def refitThisWindow (refitEvery : Option Nat) (windowIdx : Nat) : Bool :=
  match refitEvery with
  | none => windowIdx == 0
  | some r => windowIdx % r == 0

/-- Modelled from the spec: the number of refit events a global model performs
across the validation windows, numbered `0 .. numValWindows - 1`. -/
def numRefits (numValWindows : Nat) (refitEvery : Option Nat) : Nat :=
  ((List.range numValWindows).filter (refitThisWindow refitEvery)).length

/-- Modelled from the spec: a global model's per-model budget is divided
across the refit events that remain for it, so the first refit receives
`modelBudget / numRefits`. -/
def perRefitBudget (modelBudget : ℚ) (numValWindows : Nat) (refitEvery : Option Nat) : ℚ :=
  modelBudget / ((numRefits numValWindows refitEvery : Nat) : ℚ)

theorem count_multiples_range (r : Nat) (hr : 1 ≤ r) (w : Nat) :
    ((List.range w).filter (fun i => i % r == 0)).length = (w + r - 1) / r := by
  induction w with
  | zero =>
    have h0 : 0 + r - 1 = r - 1 := by omega
    rw [h0, Nat.div_eq_of_lt (by omega)]
    rfl
  | succ n ih =>
    rw [List.range_succ, List.filter_append, List.length_append, ih]
    have hsub : n + 1 + r - 1 = (n + r - 1) + 1 := by omega
    rw [hsub, Nat.succ_div]
    have hdvd : r ∣ n + r - 1 + 1 ↔ r ∣ n := by
      have heq : n + r - 1 + 1 = r + n := by omega
      rw [heq]
      exact (Nat.dvd_add_iff_right (Nat.dvd_refl r)).symm
    by_cases hmod : n % r = 0
    · have hd : r ∣ n := Nat.dvd_of_mod_eq_zero hmod
      simp [hmod, hdvd.mpr hd]
    · have hd : ¬ r ∣ n := fun hc => hmod (Nat.dvd_iff_mod_eq_zero.mp hc)
      simp [hmod, hdvd, hd]

/-- Modelled from the spec: the metadata record of one trained model as
persisted by the registry: name, type tag, fit wall-clock time, validation
score, storage path, and the names of its base models (dependency edges,
empty for non-ensembles). -/
structure ModelMeta where
  name : String
  typeTag : String
  fitTime : ℚ
  valScore : ℚ
  path : String
  baseModels : List String
deriving DecidableEq

/-- Modelled from the spec: a model artifact is its metadata together with
the in-memory residency flag. -/
structure Artifact where
  meta : ModelMeta
  resident : Bool
deriving DecidableEq

/-- Modelled from the spec: the registry exclusively owns the mapping from
names to artifacts. -/
structure Registry where
  models : List Artifact
deriving DecidableEq

/-- Modelled from the spec: `save()` serializes only the metadata (names,
types, dependency edges, scores, paths); persistence state is explicitly not
part of the serialized form. -/
def saveRegistry (r : Registry) : List ModelMeta :=
  r.models.map Artifact.meta

/-- Modelled from the spec: `load(path)` rebuilds the DAG of artifact
metadata from storage without loading any model weights; residency is False
for every artifact immediately after load. -/
def loadRegistry (saved : List ModelMeta) : Registry :=
  ⟨saved.map (fun m => ⟨m, false⟩)⟩

/-- Name-based lookup through the registry. -/
def findArtifact (r : Registry) (name : String) : Option Artifact :=
  r.models.find? (fun a => a.meta.name == name)

/-- The direct base-model names of a registered model (empty when absent). -/
def directBases (r : Registry) (name : String) : List String :=
  match findArtifact r name with
  | some a => a.meta.baseModels
  | none => []

/-- Modelled from the spec: the transitive base-model ancestors of a set of
names, computed with fuel bounded by the registry size. -/
def ancestorClosure (r : Registry) : Nat → List String → List String
  | 0, names => names
  | fuel + 1, names =>
    names ++ ancestorClosure r fuel ((names.map (directBases r)).flatten)

/-- Sets the residency flag of every named model. -/
def setResident (r : Registry) (names : List String) (v : Bool) : Registry :=
  ⟨r.models.map (fun a => if a.meta.name ∈ names then { a with resident := v } else a)⟩

/-- Modelled from the spec: the full set of names actually persisted by a
`persist` call: the named artifacts and, when `with_ancestors` is true, every
transitive base-model ancestor. -/
def persistSet (r : Registry) (names : List String) (withAncestors : Bool) : List String :=
  if withAncestors then ancestorClosure r r.models.length names else names

/-- Modelled from the spec: `persist(names, with_ancestors)` loads the named
artifacts, and with `with_ancestors = true` also every transitive base-model
ancestor, into memory; returns the full set actually persisted. -/
def persist (r : Registry) (names : List String) (withAncestors : Bool) :
    Registry × List String :=
  (setResident r (persistSet r names withAncestors) true,
    persistSet r names withAncestors)

/-- Modelled from the spec: `unpersist("all")` sets residency to False for
all resident models and returns their names; storage is untouched. -/
def unpersistAll (r : Registry) : Registry × List String :=
  (⟨r.models.map (fun a => { a with resident := false })⟩,
    (r.models.filter (fun a => a.resident)).map (fun a => a.meta.name))

/-- The number of models currently resident in memory. -/
def residentCount (r : Registry) : Nat :=
  (r.models.filter (fun a => a.resident)).length

/-- C1 (counterexample): with `min_train_length = 10`, `prediction_length = 2`,
requested `num_val_windows = 2`, `val_step_size = 1`, the single item of raw
length 12 is retained by `fit` even though 12 is strictly below the claimed
threshold `10 + 2 + (2 - 1) * 1 = 13`: the window count is silently reduced
to 1 first, so the claimed "retained iff length ≥ threshold at the requested
window count" is false. -/
theorem fitSplit_retains_below_requested_threshold :
    fitSplit 10 2 [("A", 12)] none 2 1 = Except.ok ([("A", 12)], 1) ∧
      12 < minValLength 10 2 2 1 := by
  constructor
  · rfl
  · decide

/-- C1 (amended): for every panel and parameters (no tuning data, requested
window count ≥ 1), when `fit` succeeds it returns some actual window count
`actual ≤ requested`, and an item is retained in the training panel passed
onward if and only if its raw length is at least
`min_train_length + prediction_length + (actual - 1) * val_step_size`. -/
theorem fitSplit_retained_iff_minValLength (minTrainLength predictionLength : Nat)
    (panel : Panel) (numValWindows valStepSize : Nat) (retained : Panel) (actual : Nat)
    (hw : 1 ≤ numValWindows)
    (h : fitSplit minTrainLength predictionLength panel none numValWindows valStepSize =
      Except.ok (retained, actual)) :
    actual ≤ numValWindows ∧
      ∀ it, it ∈ retained ↔
        it ∈ panel ∧ minValLength minTrainLength predictionLength actual valStepSize ≤ it.2 := by
  rw [fitSplit] at h
  split at h
  · exact absurd h (by simp)
  · simp only [Except.ok.injEq, Prod.mk.injEq] at h
    obtain ⟨hret, hact⟩ := h
    subst hact
    constructor
    · exact reduceNumValWindows_le _ _ _ _ _ hw
    · intro it
      subst hret
      simp [filterTrainPanel, List.mem_filter]

theorem fitSplit_retained_iff_minValLength_witness :
    (1 : Nat) ≤ 2 ∧
      (("A", 12) ∈ ([("A", 12)] : Panel) ↔
        ("A", 12) ∈ ([("A", 12)] : Panel) ∧ minValLength 10 2 1 1 ≤ 12) :=
  ⟨(fitSplit_retained_iff_minValLength 10 2 [("A", 12)] 2 1 [("A", 12)] 1
      (by decide) rfl).1,
    (fitSplit_retained_iff_minValLength 10 2 [("A", 12)] 2 1 [("A", 12)] 1
      (by decide) rfl).2 ("A", 12)⟩

/-- C2: for every nonempty panel whose series all have length strictly below
`min_train_length + prediction_length` (so not even one validation fold is
possible), `fit` without tuning data fails with a `DataError` naming that
minimum length requirement, for every requested window count and step size. -/
theorem fitSplit_all_short_dataError (minTrainLength predictionLength : Nat)
    (panel : Panel) (numValWindows valStepSize : Nat)
    (_hne : panel ≠ [])
    (hshort : ∀ it ∈ panel, it.2 < minTrainLength + predictionLength) :
    fitSplit minTrainLength predictionLength panel none numValWindows valStepSize =
      Except.error (FitError.dataError (minTrainLength + predictionLength)) := by
  rw [fitSplit]
  rw [if_pos]
  simp only [List.all_eq_true, decide_eq_true_eq]
  exact hshort

theorem fitSplit_all_short_dataError_witness :
    fitSplit 3 1 [("s1", 3), ("s2", 1)] none 2 1 =
      Except.error (FitError.dataError 4) :=
  fitSplit_all_short_dataError 3 1 [("s1", 3), ("s2", 1)] 2 1 (by decide)
    (by decide)

/-- C3: whenever explicit tuning data is supplied, the rolling-validation
window count passed onward by `fit` is 0, regardless of the requested
`num_val_windows`; items are filtered by `min_train_length` alone. -/
theorem fitSplit_tuningData_zero_windows (minTrainLength predictionLength : Nat)
    (panel tuning : Panel) (numValWindows valStepSize : Nat) :
    fitSplit minTrainLength predictionLength panel (some tuning) numValWindows valStepSize =
      Except.ok (filterTrainPanel minTrainLength panel, 0) := rfl

/-- C4: with a finite time limit `T`, `k` models whose elapsed fit times are
given, and a pending ensemble step when enabled, the budget granted to the
first model's fit is exactly `T` divided by the remaining step count (`k`,
or `k + 1` with ensemble), which is strictly less than `T` whenever more
than one step remains. -/
theorem grantedBudgets_first (T : ℚ) (k : Nat) (ensemble : Bool) (elapsed : List ℚ)
    (hlen : elapsed.length = k) (hk : 1 ≤ k) (hT : 0 < T) :
    (grantedBudgets (if ensemble then 1 else 0) T elapsed).head? =
      some (T / ((k + (if ensemble then 1 else 0) : Nat) : ℚ)) ∧
      (1 < k + (if ensemble then 1 else 0) →
        T / ((k + (if ensemble then 1 else 0) : Nat) : ℚ) < T) := by
  constructor
  · cases elapsed with
    | nil =>
      exfalso
      simp only [List.length_nil] at hlen
      omega
    | cons e rest =>
      rw [grantedBudgets]
      have hlen2 : rest.length + 1 = k := by simpa using hlen
      rw [List.head?_cons, hlen2]
  · intro hgt
    exact div_lt_self hT (by exact_mod_cast hgt)

theorem grantedBudgets_first_witness :
    (grantedBudgets (if true then 1 else 0) 6 [1, 2]).head? =
      some (6 / ((2 + (if true then 1 else 0) : Nat) : ℚ)) ∧
      (1 < 2 + (if true then 1 else 0) →
        (6 : ℚ) / ((2 + (if true then 1 else 0) : Nat) : ℚ) < 6) :=
  grantedBudgets_first 6 2 true [1, 2] rfl (by decide) (by norm_num)

/-- C5: a global model with `w ≥ 1` validation windows and refit cadence
`r ≥ 1` performs exactly `⌈w / r⌉ = (w + r - 1) / r` refit events, and the
first fit call receives a time limit no greater than the model's budget
divided by that refit count. -/
theorem numRefits_eq_ceil_and_budget_le (modelBudget : ℚ) (w r : Nat)
    (hr : 1 ≤ r) (_hw : 1 ≤ w) :
    numRefits w (some r) = (w + r - 1) / r ∧
      perRefitBudget modelBudget w (some r) ≤
        modelBudget / (((w + r - 1) / r : Nat) : ℚ) := by
  have hfun : refitThisWindow (some r) = fun i => i % r == 0 := rfl
  have hcount : numRefits w (some r) = (w + r - 1) / r := by
    rw [numRefits, hfun]
    exact count_multiples_range r hr w
  exact ⟨hcount, le_of_eq (by rw [perRefitBudget, hcount])⟩

theorem numRefits_eq_ceil_and_budget_le_witness :
    numRefits 6 (some 2) = (6 + 2 - 1) / 2 ∧
      perRefitBudget 10 6 (some 2) ≤ (10 : ℚ) / (((6 + 2 - 1) / 2 : Nat) : ℚ) :=
  numRefits_eq_ceil_and_budget_le 10 6 2 (by decide) (by decide)

/-- C6: for every registry, `save()` followed by `load()` yields a registry
in which the residency flag is False for every model, while the serialized
metadata (dependency graph included) survives the round trip unchanged. -/
theorem saveLoad_residency_false (r : Registry) :
    (∀ a ∈ (loadRegistry (saveRegistry r)).models, a.resident = false) ∧
      saveRegistry (loadRegistry (saveRegistry r)) = saveRegistry r := by
  constructor
  · intro a ha
    simp only [loadRegistry, saveRegistry, List.map_map, List.mem_map] at ha
    obtain ⟨x, _, hx⟩ := ha
    rw [← hx]
    rfl
  · simp [loadRegistry, saveRegistry, List.map_map, Function.comp]

theorem flatten_of_all_nil {α : Type} (ls : List (List α))
    (h : ∀ l ∈ ls, l = []) : ls.flatten = [] := by
  induction ls with
  | nil => rfl
  | cons l rest ih =>
    rw [List.flatten_cons, h l (List.mem_cons_self l rest),
      ih (fun x hx => h x (List.mem_cons_of_mem l hx))]
    rfl

theorem ancestorClosure_nil (r : Registry) :
    ∀ fuel, ancestorClosure r fuel ([] : List String) = [] := by
  intro fuel
  induction fuel with
  | zero => rfl
  | succ f ih => rw [ancestorClosure]; simpa using ih

theorem ancestorClosure_of_leaves (r : Registry) (ns : List String)
    (h : ∀ b ∈ ns, directBases r b = []) :
    ∀ fuel, ancestorClosure r fuel ns = ns := by
  intro fuel
  cases fuel with
  | zero => rfl
  | succ g =>
    rw [ancestorClosure]
    have hmap : (ns.map (directBases r)).flatten = [] := by
      refine flatten_of_all_nil _ (fun l hl => ?_)
      obtain ⟨b, hb, rfl⟩ := List.mem_map.mp hl
      exact h b hb
    rw [hmap, ancestorClosure_nil, List.append_nil]

theorem ancestorClosure_ensemble (r : Registry) (ename : String) (ea : Artifact)
    (bs : List String)
    (hfind : findArtifact r ename = some ea)
    (hbases : ea.meta.baseModels = bs)
    (hleaf : ∀ b ∈ bs, directBases r b = []) (g : Nat) :
    ancestorClosure r (g + 1) [ename] = ename :: bs := by
  rw [ancestorClosure]
  have hmap : (([ename].map (directBases r))).flatten = bs := by
    simp [directBases, hfind, hbases]
  rw [hmap, ancestorClosure_of_leaves r bs hleaf]
  rfl

theorem countP_resident_map_setTrue (ns : List String) :
    ∀ (l : List Artifact), (∀ a ∈ l, a.resident = false) →
      List.countP (fun a => a.resident)
          (l.map (fun a => if a.meta.name ∈ ns then { a with resident := true } else a)) =
        l.countP (fun a => decide (a.meta.name ∈ ns))
  | [], _ => rfl
  | a :: rest, h => by
    rw [List.map_cons, List.countP_cons, List.countP_cons,
      countP_resident_map_setTrue ns rest (fun x hx => h x (List.mem_cons_of_mem a hx))]
    by_cases hmem : a.meta.name ∈ ns
    · simp [hmem]
    · simp [hmem, h a (List.mem_cons_self a rest)]

theorem residentCount_setResident_true (r : Registry) (ns : List String)
    (h : ∀ a ∈ r.models, a.resident = false) :
    residentCount (setResident r ns true) =
      r.models.countP (fun a => decide (a.meta.name ∈ ns)) := by
  rw [residentCount, setResident, ← List.countP_eq_length_filter]
  exact countP_resident_map_setTrue ns r.models h

theorem map_filter_comp {α β : Type} (f : α → β) (p : β → Bool) (l : List α) :
    (l.filter (fun a => p (f a))).map f = (l.map f).filter p := by
  induction l with
  | nil => rfl
  | cons a rest ih =>
    by_cases hp : p (f a)
    · simp [List.filter_cons, hp, ih]
    · simp [List.filter_cons, hp, ih]

theorem length_filter_mem_of_nodup (l : List String) (ns : List String)
    (hl : l.Nodup) (hns : ns.Nodup) (hsub : ∀ x ∈ ns, x ∈ l) :
    (l.filter (fun x => decide (x ∈ ns))).length = ns.length := by
  have hfn : (l.filter (fun x => decide (x ∈ ns))).Nodup := hl.filter _
  have hfin : (l.filter (fun x => decide (x ∈ ns))).toFinset = ns.toFinset := by
    ext x
    simp only [List.mem_toFinset, List.mem_filter, decide_eq_true_eq]
    exact ⟨fun hx => hx.2, fun hx => ⟨hsub x hx, hx⟩⟩
  calc (l.filter (fun x => decide (x ∈ ns))).length
      = (l.filter (fun x => decide (x ∈ ns))).toFinset.card :=
        (List.toFinset_card_of_nodup hfn).symm
    _ = ns.toFinset.card := by rw [hfin]
    _ = ns.length := List.toFinset_card_of_nodup hns

theorem countP_name_mem_of_nodup (l : List Artifact) (ns : List String)
    (hl : (l.map (fun a => a.meta.name)).Nodup) (hns : ns.Nodup)
    (hsub : ∀ x ∈ ns, x ∈ l.map (fun a => a.meta.name)) :
    l.countP (fun a => decide (a.meta.name ∈ ns)) = ns.length := by
  rw [List.countP_eq_length_filter]
  have hmap := map_filter_comp (fun a : Artifact => a.meta.name)
    (fun x => decide (x ∈ ns)) l
  have hlen : (l.filter (fun a => decide (a.meta.name ∈ ns))).length =
      ((l.map (fun a => a.meta.name)).filter (fun x => decide (x ∈ ns))).length := by
    rw [← hmap, List.length_map]
  rw [hlen]
  exact length_filter_mem_of_nodup _ ns hl hns hsub

theorem residentCount_unpersistAll (r : Registry) :
    residentCount (unpersistAll r).1 = 0 := by
  rw [unpersistAll, residentCount]
  simp

/-- C7: for every registry in which every model is initially non-resident
and model names are distinct, containing an ensemble whose `n` distinct base
models are all present as leaves: persisting the ensemble with
`with_ancestors = true` makes exactly `1 + n` models resident, with
`with_ancestors = false` exactly 1 (the ensemble alone), and a subsequent
`unpersist("all")` returns the resident count to 0 in either case. -/
theorem persist_ensemble_resident_counts (r : Registry) (ename : String)
    (ea : Artifact) (bs : List String)
    (hfind : findArtifact r ename = some ea)
    (hbases : ea.meta.baseModels = bs)
    (hleaf : ∀ b ∈ bs, (findArtifact r b).isSome = true ∧ directBases r b = [])
    (hnodup : (r.models.map (fun a => a.meta.name)).Nodup)
    (hbsnodup : bs.Nodup)
    (hnotin : ename ∉ bs)
    (hnores : ∀ a ∈ r.models, a.resident = false) :
    residentCount (persist r [ename] true).1 = 1 + bs.length ∧
      residentCount (persist r [ename] false).1 = 1 ∧
      residentCount (unpersistAll (persist r [ename] true).1).1 = 0 ∧
      residentCount (unpersistAll (persist r [ename] false).1).1 = 0 := by
  have hfindE : r.models.find? (fun a => a.meta.name == ename) = some ea := hfind
  have hmemE : ename ∈ r.models.map (fun a => a.meta.name) := by
    have hmem := List.mem_of_find?_eq_some hfindE
    have hname := List.find?_some hfindE
    simp only [beq_iff_eq] at hname
    exact List.mem_map.mpr ⟨ea, hmem, hname⟩
  have hmemB : ∀ b ∈ bs, b ∈ r.models.map (fun a => a.meta.name) := by
    intro b hb
    obtain ⟨ba, hba⟩ := Option.isSome_iff_exists.mp (hleaf b hb).1
    have hfb : r.models.find? (fun a => a.meta.name == b) = some ba := hba
    have hmem := List.mem_of_find?_eq_some hfb
    have hname := List.find?_some hfb
    simp only [beq_iff_eq] at hname
    exact List.mem_map.mpr ⟨ba, hmem, hname⟩
  obtain ⟨g, hg⟩ : ∃ g, r.models.length = g + 1 := by
    have hpos : 0 < r.models.length :=
      List.length_pos.mpr (List.ne_nil_of_mem (List.mem_of_find?_eq_some hfindE))
    exact ⟨r.models.length - 1, by omega⟩
  have hclosure : ancestorClosure r r.models.length [ename] = ename :: bs := by
    rw [hg]
    exact ancestorClosure_ensemble r ename ea bs hfind hbases
      (fun b hb => (hleaf b hb).2) g
  have hset1 : persistSet r [ename] true = ename :: bs := by
    rw [persistSet, if_pos rfl, hclosure]
  have hset2 : persistSet r [ename] false = [ename] := by
    rw [persistSet, if_neg (by simp)]
  refine ⟨?_, ?_, residentCount_unpersistAll _, residentCount_unpersistAll _⟩
  · show residentCount (setResident r (persistSet r [ename] true) true) = 1 + bs.length
    rw [hset1, residentCount_setResident_true r _ hnores,
      countP_name_mem_of_nodup _ _ hnodup]
    · simp [Nat.add_comm]
    · exact List.nodup_cons.mpr ⟨hnotin, hbsnodup⟩
    · intro x hx
      rcases List.mem_cons.mp hx with hx | hx
      · exact hx ▸ hmemE
      · exact hmemB x hx
  · show residentCount (setResident r (persistSet r [ename] false) true) = 1
    rw [hset2, residentCount_setResident_true r _ hnores,
      countP_name_mem_of_nodup _ _ hnodup]
    · rfl
    · exact List.nodup_singleton ename
    · intro x hx
      rw [List.mem_singleton.mp hx]
      exact hmemE

/-- A sample registry: a weighted ensemble over two local base models, with
nothing resident. -/
def sampleEnsembleRegistry : Registry :=
  ⟨[⟨⟨"WeightedEnsemble", "ensemble", 1, 0, "pE", ["Naive", "SeasonalNaive"]⟩, false⟩,
    ⟨⟨"Naive", "local", 1, 0, "pN", []⟩, false⟩,
    ⟨⟨"SeasonalNaive", "local", 1, 0, "pS", []⟩, false⟩]⟩

theorem persist_ensemble_resident_counts_witness :
    residentCount (persist sampleEnsembleRegistry ["WeightedEnsemble"] true).1 = 3 ∧
      residentCount (persist sampleEnsembleRegistry ["WeightedEnsemble"] false).1 = 1 ∧
      residentCount (unpersistAll (persist sampleEnsembleRegistry ["WeightedEnsemble"] true).1).1 = 0 ∧
      residentCount (unpersistAll (persist sampleEnsembleRegistry ["WeightedEnsemble"] false).1).1 = 0 :=
  persist_ensemble_resident_counts sampleEnsembleRegistry "WeightedEnsemble"
    ⟨⟨"WeightedEnsemble", "ensemble", 1, 0, "pE", ["Naive", "SeasonalNaive"]⟩, false⟩
    ["Naive", "SeasonalNaive"] rfl rfl (by decide) (by decide) (by decide) (by decide)
    (by decide)

/-- Modelled from the spec: the names of the already-trained models whose
predict raised during a post-training `predict`/`evaluate` call; each
requested model is paired with `some forecast` on success, `none` on
failure. -/
def failedModels {α : Type} (results : List (String × Option α)) : List String :=
  (results.filter (fun m => m.2.isNone)).map Prod.fst

/-- Modelled from the spec: post-training `predict`/`evaluate` fail and
surface to the caller the name of every model that failed to predict; only
when no model failed are the forecasts returned. -/
def predictAll {α : Type} (results : List (String × Option α)) :
    Except (List String) (List (String × α)) :=
  if failedModels results = [] then
    Except.ok (results.filterMap (fun m => m.2.map (fun v => (m.1, v))))
  else Except.error (failedModels results)

/-- C8: whenever at least one already-trained model's predict raises during a
post-training `predict`/`evaluate` call, the call itself fails with an error
carrying the failing model names, and every model that failed to predict is
named there — never silently omitted. -/
theorem predictAll_error_names_failures {α : Type}
    (results : List (String × Option α)) (m : String × Option α)
    (hm : m ∈ results) (hfail : m.2 = none) :
    predictAll results = Except.error (failedModels results) ∧
      ∀ x ∈ results, x.2 = none → x.1 ∈ failedModels results := by
  have hmem1 : ∀ x ∈ results, x.2 = none → x.1 ∈ failedModels results := by
    intro x hx hxfail
    refine List.mem_map.mpr ⟨x, List.mem_filter.mpr ⟨hx, ?_⟩, rfl⟩
    rw [hxfail]
    rfl
  have hne2 : failedModels results ≠ [] := by
    intro hnil
    have hin := hmem1 m hm hfail
    rw [hnil] at hin
    exact List.not_mem_nil _ hin
  constructor
  · rw [predictAll, if_neg hne2]
  · exact hmem1

theorem predictAll_error_names_failures_witness :
    "ETS" ∈ failedModels [("ETS", (none : Option Nat)), ("Naive", some 5)] :=
  (predictAll_error_names_failures [("ETS", (none : Option Nat)), ("Naive", some 5)]
      ("ETS", none) (by decide) rfl).2 ("ETS", none) (by decide) rfl

/-- A prediction-cache key: model name, window index, and the fingerprint of
the input data. -/
abbrev CacheKey := String × Nat × Nat

/-- Modelled from the spec: lookup of the at-most-one cache entry per key. -/
def cacheLookup {α : Type} (entries : List (CacheKey × α)) (k : CacheKey) : Option α :=
  (entries.find? (fun e => decide (e.1 = k))).map Prod.snd

/-- Modelled from the spec: storing a forecast keeps at most one entry per
key, overwriting any previous entry with the same key. -/
def cacheStore {α : Type} (entries : List (CacheKey × α)) (k : CacheKey) (v : α) :
    List (CacheKey × α) :=
  (k, v) :: entries.filter (fun e => !decide (e.1 = k))

/-- Modelled from the spec: `get_or_compute`.  On hit with `use_cache = true`
the cached value is returned without invoking the model; on miss or with
`use_cache = false` the model's predict is invoked, the result stored (also
when `use_cache = false`: overwrite-on-compute), and returned.  The last
component counts model invocations made by the call (0 or 1). -/
def getOrCompute {α : Type} (entries : List (CacheKey × α)) (k : CacheKey)
    (modelPred : α) (useCache : Bool) : α × List (CacheKey × α) × Nat :=
  match (if useCache then cacheLookup entries k else none) with
  | some v => (v, entries, 0)
  | none => (modelPred, cacheStore entries k modelPred, 1)

/-- Two consecutive `get_or_compute` calls with the same key and unchanged
data, returning the total number of model invocations. -/
def invocationsTwoCalls {α : Type} (entries : List (CacheKey × α)) (k : CacheKey)
    (modelPred : α) (useCache : Bool) : Nat :=
  (getOrCompute entries k modelPred useCache).2.2 +
    (getOrCompute (getOrCompute entries k modelPred useCache).2.1 k modelPred useCache).2.2

theorem cacheLookup_cacheStore {α : Type} (entries : List (CacheKey × α))
    (k : CacheKey) (v : α) : cacheLookup (cacheStore entries k v) k = some v := by
  simp [cacheLookup, cacheStore]

/-- C9: on a trained predictor with unchanged input data, two consecutive
predict calls with `use_cache = true` invoke the underlying model exactly
once (the second call is served from the cache), while calls with
`use_cache = false` never read the cache — they invoke the model on every
call, even when the key is already cached. -/
theorem invocationsTwoCalls_cache {α : Type} (entries : List (CacheKey × α))
    (k : CacheKey) (v : α) (h : cacheLookup entries k = none) :
    invocationsTwoCalls entries k v true = 1 ∧
      invocationsTwoCalls entries k v false = 2 ∧
      invocationsTwoCalls (cacheStore entries k v) k v false = 2 := by
  refine ⟨?_, rfl, rfl⟩
  rw [invocationsTwoCalls]
  rw [getOrCompute]
  rw [if_pos rfl, h]
  show 1 + (getOrCompute (cacheStore entries k v) k v true).2.2 = 1
  rw [getOrCompute, if_pos rfl, cacheLookup_cacheStore]
  rfl

theorem invocationsTwoCalls_cache_witness :
    invocationsTwoCalls ([] : List (CacheKey × Nat)) ("Naive", 0, 7) 42 true = 1 ∧
      invocationsTwoCalls ([] : List (CacheKey × Nat)) ("Naive", 0, 7) 42 false = 2 ∧
      invocationsTwoCalls (cacheStore ([] : List (CacheKey × Nat)) ("Naive", 0, 7) 42)
        ("Naive", 0, 7) 42 false = 2 :=
  invocationsTwoCalls_cache [] ("Naive", 0, 7) 42 rfl

end AGTS
